import Mathlib

/-!
Verification of the address-extraction core of the rpc-script repository.

The script scans captured JSON-RPC request/response records, classifies each
record by method name and payload shape, extracts sender (`from`) addresses
(resolving transaction hashes through an injected provider when the address is
not inline), lower-cases every address, and aggregates the findings into a
unique-address set and an address-to-count mapping.

The embedding below models:
  * dynamic JavaScript values (`JSValue`) with JS property access, optional
    chaining, truthiness, and `typeof x === 'object'` tests;
  * `processDocument` (identical logic in all three source variants): the six
    extraction rules, returning the ordered sequence of normalized findings
    emitted by the `addAddress` helper together with a flag recording whether
    an exception escaped the function (exceptions thrown inside the
    `try { ... } catch {}` blocks around resolver calls are swallowed there,
    so they never set the flag);
  * `extractFromAddresses` (per-record try/catch loop) and `mergeAddresses`;
  * the two counting variants of `addAddress`: the plain-object counts map
    (`addAddressCounts`, subject to JavaScript prototype-chain lookup on keys
    such as "constructor") and the `Map`-based variant (`addAddressMap`).
-/

/-- Dynamic JSON-like values, modelling the loosely structured MongoDB
records and RPC payloads the script inspects. -/
inductive JSValue : Type where
  | vNull
  | vUndefined
  | vStr (s : String)
  | vNum (n : Int)
  | vBool (b : Bool)
  | vArr (elems : List JSValue)
  | vObj (fields : List (String × JSValue))

/-- JavaScript `.toLowerCase()` restricted to the character-wise ASCII
case-fold performed by `Char.toLower`. -/
def jsToLower (s : String) : String := String.mk (s.data.map Char.toLower)

/-- Optional-chaining property access `v?.k`: `null`/`undefined` propagate to
`undefined`; missing keys and non-object bases give `undefined`. -/
def JSValue.optProp : JSValue → String → JSValue
  | .vObj fields, k => (List.lookup k fields).getD .vUndefined
  | _, _ => .vUndefined

/-- Optional-chaining element access `v?.[i]`. Arrays index positionally,
objects look up the decimal string key, strings index their characters. -/
def JSValue.optIdx : JSValue → Nat → JSValue
  | .vArr xs, i => xs.getD i .vUndefined
  | .vObj fields, i => (List.lookup (toString i) fields).getD .vUndefined
  | .vStr s, i =>
    match s.data.get? i with
    | some c => .vStr (String.mk [c])
    | none => .vUndefined
  | _, _ => .vUndefined

/-- JavaScript truthiness of a value. -/
def JSValue.truthy : JSValue → Bool
  | .vNull => false
  | .vUndefined => false
  | .vStr s => !(s == "")
  | .vNum n => !(n == 0)
  | .vBool b => b
  | .vArr _ => true
  | .vObj _ => true

/-- The test `typeof v === 'object'`, true for objects, arrays and `null`. -/
def JSValue.isTypeofObject : JSValue → Bool
  | .vNull => true
  | .vArr _ => true
  | .vObj _ => true
  | _ => false

/-- Strict string comparison `v === s` against a string literal. -/
def JSValue.isStr : JSValue → String → Bool
  | .vStr t, s => t == s
  | _, _ => false

/-- The test `Array.isArray v`. -/
def JSValue.isArray : JSValue → Bool
  | .vArr _ => true
  | _ => false

/-- Elements of an array value (callers establish `isArray` first). -/
def JSValue.arrElems : JSValue → List JSValue
  | .vArr xs => xs
  | _ => []

/-- The core of the `addAddress` helper once the caller has established that
its argument is truthy: `address.toLowerCase()` yields the normalized finding
when the value is a string, and raises a `TypeError` otherwise. -/
def addrEmit : JSValue → Except Unit String
  | .vStr s => .ok (jsToLower s)
  | _ => .error ()

/-- Result of running a block of extraction statements: the normalized
findings emitted so far (in emission order — they are written into the shared
set/counts structures immediately, so they survive a later exception) and
whether an exception escaped the block. -/
structure ExecResult where
  out : List String
  threw : Bool
deriving DecidableEq, Repr

/-- Sequencing of two statement blocks: if the first throws, the second never
runs and its findings are not produced. -/
def ExecResult.seq (a b : ExecResult) : ExecResult :=
  if a.threw then a else ⟨a.out ++ b.out, b.threw⟩

/-- The injected resolver capability `provider.getTransaction(txHash)`:
returns the transaction details value, or fails. -/
def Resolver : Type := JSValue → Except Unit JSValue

/-- One `try { const txDetails = await provider.getTransaction(txHash);
if (txDetails?.from) addAddress(txDetails.from); } catch (error) {}` block:
resolver failures and any exception inside the block are swallowed. -/
def resolveOne (r : Resolver) (txHash : JSValue) : List String :=
  match r txHash with
  | .ok txDetails =>
    let f := txDetails.optProp ("from")
    if f.truthy then
      match addrEmit f with
      | .ok s => [s]
      | .error _ => []
    else []
  | .error _ => []

/-- CASE 1, structured-object branch: `for (const tx of txs) { if (tx.from)
addAddress(tx.from); }`. The plain access `tx.from` throws a `TypeError` when
`tx` is `null` (or `undefined`), and `addAddress` throws when a truthy
non-string `from` reaches `.toLowerCase()`; such an exception escapes the
whole record's processing. -/
def case1objLoop : List JSValue → ExecResult
  | [] => ⟨[], false⟩
  | tx :: rest =>
    match tx with
    | .vNull => ⟨[], true⟩
    | .vUndefined => ⟨[], true⟩
    | _ =>
      let f := tx.optProp ("from")
      if f.truthy then
        match addrEmit f with
        | .ok s =>
          let res := case1objLoop rest
          ⟨s :: res.out, res.threw⟩
        | .error _ => ⟨[], true⟩
      else case1objLoop rest

/-- CASE 1, transaction-hash branch: each element is resolved inside its own
try/catch, so no exception ever escapes this loop. -/
def case1hashLoop (r : Resolver) : List JSValue → List String
  | [] => []
  | txHash :: rest => resolveOne r txHash ++ case1hashLoop r rest

/-- Body of CASE 1 after the `Array.isArray` test: the branch test
`txs.length > 0 && typeof txs[0] === 'object'` chooses between the
structured-object loop and the hash-resolution loop. -/
def case1core (r : Resolver) (txs : List JSValue) : ExecResult :=
  if (!txs.isEmpty) && (txs.getD 0 .vUndefined).isTypeofObject then
    case1objLoop txs
  else ⟨case1hashLoop r txs, false⟩

/-- CASES 1 and 2 of `processDocument` (the `if / else if` chain keyed on
`doc.method`), given the already-computed values of `doc.method`,
`doc.response?.body?.result` and `doc.request?.body?.params`. -/
def cases12 (r : Resolver) (method respResult params : JSValue) : ExecResult :=
  if (method.isStr ("eth_getBlockByNumber") || method.isStr ("eth_getBlockByHash"))
      && (respResult.optProp ("transactions")).isArray then
    case1core r ((respResult.optProp ("transactions")).arrElems)
  else if method.isStr ("eth_sendRawTransaction") && respResult.truthy then
    ⟨resolveOne r respResult, false⟩
  else if method.isStr ("eth_getTransactionByHash")
      && ((respResult.optProp ("from")).truthy) then
    match addrEmit (respResult.optProp ("from")) with
    | .ok s => ⟨[s], false⟩
    | .error _ => ⟨[], true⟩
  else if method.isStr ("eth_getTransactionReceipt") then
    let txHash := params.optIdx 0
    if txHash.truthy then ⟨resolveOne r txHash, false⟩
    else ⟨[], false⟩
  else ⟨[], false⟩

/-- The CASE 3 element guard `param && typeof param === 'object' && param.from`. -/
def paramHasFrom (p : JSValue) : Bool :=
  p.truthy && p.isTypeofObject && ((p.optProp ("from")).truthy)

/-- CASE 3 loop body: `if (param && typeof param === 'object' && param.from)
addAddress(param.from)` for each element of the params array. -/
def case3Loop : List JSValue → ExecResult
  | [] => ⟨[], false⟩
  | p :: rest =>
    if paramHasFrom p then
      match addrEmit (p.optProp ("from")) with
      | .ok s =>
        let res := case3Loop rest
        ⟨s :: res.out, res.threw⟩
      | .error _ => ⟨[], true⟩
    else case3Loop rest

/-- CASE 3: from-fields in request parameters, fired whenever
`doc.request?.body?.params` is truthy and an array, regardless of method. -/
def case3 (params : JSValue) : ExecResult :=
  if params.truthy then
    if params.isArray then case3Loop params.arrElems
    else ⟨[], false⟩
  else ⟨[], false⟩

/-- CASE 4: `(eth_call or eth_estimateGas) && doc.request?.body?.params?.[0]?.from`. -/
def case4 (method params : JSValue) : ExecResult :=
  if (method.isStr ("eth_call") || method.isStr ("eth_estimateGas"))
      && (((params.optIdx 0).optProp ("from")).truthy) then
    match addrEmit ((params.optIdx 0).optProp ("from")) with
    | .ok s => ⟨[s], false⟩
    | .error _ => ⟨[], true⟩
  else ⟨[], false⟩

/-- The `processDocument` function shared (up to the counting side effect of
`addAddress`) by all three source variants: evaluates CASES 1-2, then CASE 3,
then CASE 4; an uncaught exception in an earlier case aborts the later cases.
Accessing `doc.method` on a `null`/`undefined` document throws immediately. -/
def processDocument (r : Resolver) (doc : JSValue) : ExecResult :=
  match doc with
  | .vNull => ⟨[], true⟩
  | .vUndefined => ⟨[], true⟩
  | _ =>
    let method := doc.optProp ("method")
    let respResult := ((doc.optProp ("response")).optProp ("body")).optProp ("result")
    let params := ((doc.optProp ("request")).optProp ("body")).optProp ("params")
    ((cases12 r method respResult params).seq (case3 params)).seq (case4 method params)

/-- JavaScript `Set.prototype.add`: insertion-ordered, idempotent. -/
def addUnique (s : List String) (a : String) : List String :=
  if a ∈ s then s else s ++ [a]

/-- Insert a record's findings, in order, into the unique-address set. -/
def addFindings (s : List String) (findings : List String) : List String :=
  List.foldl addUnique s findings

/-- The `extractFromAddresses` loop: each record is processed inside a
try/catch, so a record whose processing throws contributes exactly the
findings emitted before the exception, and processing always continues with
the next record — the function itself never fails. -/
def extractFromAddresses (r : Resolver) (docs : List JSValue) : List String :=
  List.foldl (fun acc doc => addFindings acc (processDocument r doc).out) [] docs

/-- The `mergeAddresses` function: fold all per-chain address arrays into one
insertion-ordered set. -/
def mergeAddresses (arrays : List (List String)) : List String :=
  List.foldl (fun acc arr => List.foldl addUnique acc arr) [] arrays

/-- Values stored in the plain-object `addressCounts` map of the counting
variant: a number, or `NaN` (produced by applying `++` to an inherited
`Object.prototype` method). -/
inductive CountVal : Type where
  | num (n : Nat)
  | nan
deriving DecidableEq, Repr

/-- Keys whose lookup on an empty plain JavaScript object still yields a
truthy value, inherited from `Object.prototype`. -/
def protoTruthyKey (k : String) : Bool :=
  k == "constructor" || k == "toString" || k == "toLocaleString"
    || k == "valueOf" || k == "hasOwnProperty" || k == "isPrototypeOf"
    || k == "propertyIsEnumerable"

/-- Own-property assignment `obj[k] = v` on an association list, keeping the
original insertion position of an existing key. -/
def assocSet : List (String × CountVal) → String → CountVal → List (String × CountVal)
  | [], k, v => [(k, v)]
  | (k0, v0) :: rest, k, v =>
    if k0 = k then (k0, v) :: rest else (k0, v0) :: assocSet rest k v

/-- Truthiness of the property read `addressCounts[k]` on a plain object:
own properties first, then the `Object.prototype` chain. -/
def countsLookupTruthy (counts : List (String × CountVal)) (k : String) : Bool :=
  match List.lookup k counts with
  | some (.num n) => !(n == 0)
  | some .nan => false
  | none => protoTruthyKey k

/-- The increment `addressCounts[k]++`: numbers increment; `NaN` stays `NaN`;
an inherited prototype method (or `undefined`) coerces to `NaN`. -/
def countsIncr (counts : List (String × CountVal)) (k : String) : List (String × CountVal) :=
  match List.lookup k counts with
  | some (.num n) => assocSet counts k (.num (n + 1))
  | some .nan => assocSet counts k .nan
  | none => assocSet counts k .nan

/-- The plain-object counting `addAddress` variant (counts side only):
`if (addressCounts[lowerAddress]) { addressCounts[lowerAddress]++ } else
{ addressCounts[lowerAddress] = 1 }`. -/
def addAddressCounts (counts : List (String × CountVal)) (address : String) :
    List (String × CountVal) :=
  let lowerAddress := jsToLower address
  if countsLookupTruthy counts lowerAddress then countsIncr counts lowerAddress
  else assocSet counts lowerAddress (.num 1)

/-- Own-key update on a `Map`-backed association list (insertion order kept). -/
def assocSetNat : List (String × Nat) → String → Nat → List (String × Nat)
  | [], k, v => [(k, v)]
  | (k0, v0) :: rest, k, v =>
    if k0 = k then (k0, v) :: rest else (k0, v0) :: assocSetNat rest k v

/-- The `Map`-based counting `addAddress` variant:
`addressCounts.set(lowerAddress, (addressCounts.get(lowerAddress) || 0) + 1)`. -/
def addAddressMap (counts : List (String × Nat)) (address : String) :
    List (String × Nat) :=
  let lowerAddress := jsToLower address
  assocSetNat counts lowerAddress (((List.lookup lowerAddress counts).getD 0) + 1)

/-- A resolver that fails on every hash. -/
def failResolver : Resolver := fun _ => .error ()

/-- Build a resolver from a partial map of hash strings to `from` addresses:
mapped hashes resolve to a transaction object carrying that `from` field,
unmapped hashes (and non-string arguments) fail. -/
def mkResolver (res : String → Option String) : Resolver := fun h =>
  match h with
  | .vStr s =>
    match res s with
    | some a => .ok (.vObj [(("from"), .vStr a)])
    | none => .error ()
  | _ => .error ()

/-- A record whose method is `m` with a single request parameter object
carrying a `from` field. -/
def callDoc (m s : String) : JSValue :=
  .vObj [(("method"), .vStr m),
    (("request"), .vObj [(("body"), .vObj [(("params"),
      .vArr [.vObj [(("from"), .vStr s)]])])])]

/-- A block record whose `response.body.result.transactions` is `txs`. -/
def blockDoc (m : String) (txs : List JSValue) : JSValue :=
  .vObj [(("method"), .vStr m),
    (("response"), .vObj [(("body"), .vObj [(("result"),
      .vObj [(("transactions"), .vArr txs)])])])]

/-- A `eth_getTransactionByHash` record whose `response.body.result.from` is `s`. -/
def txByHashDoc (s : String) : JSValue :=
  .vObj [(("method"), .vStr ("eth_getTransactionByHash")),
    (("response"), .vObj [(("body"), .vObj [(("result"),
      .vObj [(("from"), .vStr s)])])])]

/-- A block record whose transactions array holds a single `null` element and
whose request carries an inline param with a `from` field: evaluating rule 1's
structured-object branch on it throws a `TypeError` before rules 5 and 6 run. -/
def docNullTx : JSValue :=
  .vObj [(("method"), .vStr ("eth_getBlockByNumber")),
    (("response"), .vObj [(("body"), .vObj [(("result"),
      .vObj [(("transactions"), .vArr [.vNull])])])]),
    (("request"), .vObj [(("body"), .vObj [(("params"),
      .vArr [.vObj [(("from"), .vStr ("0xA"))]])])])]

/-- The resolver map used by the C4 witness: hash `"H1"` resolves to a
transaction sent from `"0xC"`, every other hash fails. -/
def resWitness : String → Option String :=
  fun h => if h == ("H1") then some ("0xC") else none

/-- The method test of classification rules 1-4: each of these five method
strings selects at most one of the four method-keyed rules. -/
def isRule14Method (m : JSValue) : Bool :=
  m.isStr ("eth_getBlockByNumber") || m.isStr ("eth_getBlockByHash")
    || m.isStr ("eth_sendRawTransaction") || m.isStr ("eth_getTransactionByHash")
    || m.isStr ("eth_getTransactionReceipt")

/-- No element of the request parameters is a structured object carrying a
(truthy) `from` field — the condition under which rules 5 and 6 find
nothing. For a params sequence this is elementwise; for a non-sequence
params value it says the `params?.[0]?.from` access of rule 6 is falsy. -/
def noParamsFrom (params : JSValue) : Bool :=
  match params with
  | .vArr ps => ps.all (fun p => !(paramHasFrom p))
  | _ => !(((params.optIdx 0).optProp ("from")).truthy)

/-! ### General lemmas about normalization and the unique-address set -/

theorem char_toLower_idem (c : Char) : c.toLower.toLower = c.toLower := by
  unfold Char.toLower
  by_cases h : c.toNat ≥ 65 ∧ c.toNat ≤ 90
  · have key : (Char.ofNat (c.toNat + 32)).toNat = c.toNat + 32 := by
      obtain ⟨h1, h2⟩ := h
      set m := c.toNat with hm
      interval_cases m <;> decide
    simp only [if_pos h, key]
    rw [if_neg (by omega)]
  · simp only [if_neg h]

theorem jsToLower_idem (s : String) : jsToLower (jsToLower s) = jsToLower s := by
  unfold jsToLower
  congr 1
  simp only [List.map_map]
  apply List.map_congr_left
  intro c _
  simpa using char_toLower_idem c

theorem mem_addUnique {s : List String} {a b : String} :
    b ∈ addUnique s a ↔ b ∈ s ∨ b = a := by
  unfold addUnique
  by_cases h : a ∈ s
  · simp only [if_pos h]
    constructor
    · exact Or.inl
    · rintro (hb | rfl)
      · exact hb
      · exact h
  · simp [if_neg h]

theorem nodup_addUnique {s : List String} (h : s.Nodup) (a : String) :
    (addUnique s a).Nodup := by
  unfold addUnique
  by_cases ha : a ∈ s
  · simpa [if_pos ha] using h
  · simp [if_neg ha, List.nodup_append, h, ha]

theorem mem_foldl_addUnique (A : List String) (s : List String) (b : String) :
    b ∈ List.foldl addUnique s A ↔ b ∈ s ∨ b ∈ A := by
  induction A generalizing s with
  | nil => simp
  | cons x t ih => simp [List.foldl_cons, ih, mem_addUnique, List.mem_cons, or_assoc]

theorem nodup_foldl_addUnique (A : List String) {s : List String} (h : s.Nodup) :
    (List.foldl addUnique s A).Nodup := by
  induction A generalizing s with
  | nil => exact h
  | cons x t ih => exact ih (nodup_addUnique h x)

theorem foldl_addUnique_of_subset (A : List String) {s : List String}
    (h : ∀ a ∈ A, a ∈ s) : List.foldl addUnique s A = s := by
  induction A with
  | nil => rfl
  | cons x t ih =>
    have hx : x ∈ s := h x (List.mem_cons_self x t)
    simp only [List.foldl_cons, addUnique, if_pos hx]
    exact ih fun a ha => h a (List.mem_cons_of_mem x ha)

/-! ### Claim C1 -/

/-- C1, counterexample: on a block record whose transactions array holds a
`null` element and whose request carries an inline param with `from = "0xA"`,
the `TypeError` thrown in rule 1's structured-object branch escapes
`processDocument`, so the record produces no findings at all — even though
rule 5 evaluated on the same record's params would have produced `"0xa"`.
This falsifies the claim that an error in one rule does not abort the
remaining rules for the same record. -/
theorem C1_rule_abort_counterexample :
    (processDocument failResolver docNullTx).threw = true
    ∧ (processDocument failResolver docNullTx).out = []
    ∧ (case3 ((((docNullTx.optProp ("request")).optProp ("body")).optProp ("params")))).out
        = [("0xa")] := by decide

/-- C1, amended: a resolver error never aborts anything (it is swallowed at
the resolver call), but any other exception raised while evaluating a rule —
such as the `TypeError` on a `null` transactions element in rule 1's
structured-object branch — aborts the remaining rules for that record. The
exception is contained at the record boundary: the record contributes exactly
the findings emitted before the exception, every subsequent record is still
processed, and `extractFromAddresses` as a whole never fails. -/
theorem C1_record_level_containment (r : Resolver) (pre post : List JSValue) :
    (processDocument r docNullTx).threw = true
    ∧ extractFromAddresses r (pre ++ docNullTx :: post)
        = List.foldl (fun acc doc => addFindings acc (processDocument r doc).out)
            (extractFromAddresses r pre) post := by
  have h : processDocument r docNullTx = ⟨[], true⟩ := rfl
  refine ⟨by rw [h], ?_⟩
  unfold extractFromAddresses
  rw [List.foldl_append, List.foldl_cons, h]
  rfl

/-! ### Claim C2 -/

/-- C2: in the plain-object counting variant, an address whose normalized form
is `"constructor"` is miscounted: the truthiness test
`if (addressCounts[lowerAddress])` reads the inherited
`Object.prototype.constructor` (truthy) on the very first addition, so the
code increments the inherited function instead of initialising the count —
storing `NaN` after one addition and `1` after two additions, never the
required positive count equal to the number of additions. -/
theorem C2_prototype_key_miscount :
    List.foldl addAddressCounts [] [("Constructor")]
        = [(("constructor"), CountVal.nan)]
    ∧ List.foldl addAddressCounts [] [("Constructor"), ("Constructor")]
        = [(("constructor"), CountVal.num 1)]
    ∧ List.foldl addAddressMap [] [("Constructor")]
        = [(("constructor"), 1)] := by decide

/-! ### Claim C3 -/

/-- C3: a record whose method is `eth_call` or `eth_estimateGas` and whose
`request.body.params[0]` is an object with a (truthy string) `from` field
produces two findings for that one address from that single record — one from
rule 5 (CASE 3) and one from rule 6 (CASE 4) — for any resolver; rules are
independently additive and do not deduplicate within a record. -/
theorem C3_call_estimate_double_finding (r : Resolver) (m s : String)
    (hm : m = ("eth_call") ∨ m = ("eth_estimateGas")) (hs : s ≠ ("")) :
    processDocument r (callDoc m s) = ⟨[jsToLower s, jsToLower s], false⟩ := by
  have hbeq : (s == "") = false := beq_eq_false_iff_ne.mpr hs
  rcases hm with hm | hm <;> subst hm <;>
    simp [processDocument, callDoc, cases12, case1core, case3, case3Loop, case4,
      paramHasFrom, JSValue.optProp, JSValue.optIdx, JSValue.isStr, JSValue.truthy,
      JSValue.isTypeofObject, JSValue.isArray, JSValue.arrElems, addrEmit,
      ExecResult.seq, List.lookup, hbeq]

/-- C3 witness: an `eth_call` record with `params[0].from = "0xAb"` yields the
two findings `"0xab", "0xab"`. -/
theorem C3_call_estimate_double_finding_witness :
    processDocument failResolver (callDoc ("eth_call") ("0xAb"))
      = ⟨[("0xab"), ("0xab")], false⟩ :=
  C3_call_estimate_double_finding failResolver ("eth_call") ("0xAb")
    (Or.inl rfl) (by decide)

/-! ### Claim C5 -/

/-- C5: a record whose method is `eth_getTransactionByHash` and whose
`response.body.result.from` is the (nonempty) string `s` yields exactly the
case-folded form of `s` as its findings, for every resolver — no resolver
call is needed for this rule. -/
theorem C5_direct_tx_lookup (r : Resolver) (s : String) (hs : s ≠ ("")) :
    processDocument r (txByHashDoc s) = ⟨[jsToLower s], false⟩ := by
  have hbeq : (s == "") = false := beq_eq_false_iff_ne.mpr hs
  simp [processDocument, txByHashDoc, cases12, case3, case4, JSValue.optProp,
    JSValue.optIdx, JSValue.isStr, JSValue.truthy, JSValue.isArray, addrEmit,
    ExecResult.seq, List.lookup, hbeq]

/-- C5 witness: `response.body.result.from = "0xABC"` yields exactly
`"0xabc"`, with a resolver that fails on every hash. -/
theorem C5_direct_tx_lookup_witness :
    processDocument failResolver (txByHashDoc ("0xABC")) = ⟨[("0xabc")], false⟩ :=
  C5_direct_tx_lookup failResolver ("0xABC") (by decide)

/-! ### Claim C4 -/

/-- The hash-resolution loop over string hashes, against a resolver built from
a partial hash-to-address map, keeps exactly the case-folded addresses of the
successfully resolved hashes, in order. -/
theorem case1hashLoop_mkResolver (res : String → Option String)
    (hok : ∀ h a, res h = some a → a ≠ ("")) (hs : List String) :
    case1hashLoop (mkResolver res) (hs.map .vStr)
      = hs.filterMap (fun h => (res h).map jsToLower) := by
  induction hs with
  | nil => rfl
  | cons h t ih =>
    simp only [List.map_cons, case1hashLoop, List.filterMap_cons]
    cases hres : res h with
    | none => simpa [resolveOne, mkResolver, hres] using ih
    | some a =>
      have ha : (a == "") = false := beq_eq_false_iff_ne.mpr (hok h a hres)
      simpa [resolveOne, mkResolver, hres, JSValue.optProp, JSValue.truthy,
        addrEmit, List.lookup, ha] using ih

/-- C4: for a block record whose `transactions` are hash strings, if the
resolver succeeds for some hashes (yielding a transaction with a nonempty
`from` address) and fails for the others, extraction yields exactly the
case-folded `from` addresses of the successfully resolved hashes, in order;
every failing element is silently skipped and no exception escapes the
record. -/
theorem C4_hash_block_partial_resolution (res : String → Option String)
    (hashes : List String) (m : String)
    (hm : m = ("eth_getBlockByNumber") ∨ m = ("eth_getBlockByHash"))
    (hok : ∀ h a, res h = some a → a ≠ ("")) :
    processDocument (mkResolver res) (blockDoc m (hashes.map .vStr))
      = ⟨hashes.filterMap (fun h => (res h).map jsToLower), false⟩ := by
  have hbranch : case1core (mkResolver res) (hashes.map JSValue.vStr)
      = ⟨case1hashLoop (mkResolver res) (hashes.map .vStr), false⟩ := by
    cases hashes with
    | nil => rfl
    | cons h t =>
      simp [case1core, JSValue.isTypeofObject, List.getD]
  rcases hm with hm | hm <;> subst hm <;>
    simp [processDocument, blockDoc, cases12, hbranch,
      case1hashLoop_mkResolver res hok hashes, case3, case4, JSValue.optProp,
      JSValue.optIdx, JSValue.isStr, JSValue.truthy, JSValue.isArray,
      JSValue.arrElems, ExecResult.seq, List.lookup]

/-- C4 witness: with transactions `["H1", "H2"]` where `"H1"` resolves to
`from = "0xC"` and `"H2"` fails, the findings are exactly `["0xc"]` and no
exception escapes. -/
theorem C4_hash_block_partial_resolution_witness :
    processDocument (mkResolver resWitness)
        (blockDoc ("eth_getBlockByNumber") ([("H1"), ("H2")].map .vStr))
      = ⟨[("0xc")], false⟩ :=
  C4_hash_block_partial_resolution resWitness [("H1"), ("H2")]
    ("eth_getBlockByNumber") (Or.inl rfl)
    (by
      intro h a hres
      unfold resWitness at hres
      split at hres
      · cases hres
        decide
      · cases hres)

/-! ### Claim C6 -/

/-- If no element of the params array passes the CASE 3 guard, the CASE 3
loop emits nothing and does not throw. -/
theorem case3Loop_no_from (ps : List JSValue)
    (hp : ∀ p ∈ ps, paramHasFrom p = false) :
    case3Loop ps = ⟨[], false⟩ := by
  induction ps with
  | nil => rfl
  | cons p t ih =>
    have hf := hp p (List.mem_cons_self p t)
    simp only [case3Loop, hf, Bool.false_eq_true, if_false]
    exact ih fun q hq => hp q (List.mem_cons_of_mem p hq)

/-- If no element of the params array passes the CASE 3 guard, then the
rule 6 access `params?.[0]?.from` is falsy as well. -/
theorem arr_no_from_head (ps : List JSValue)
    (hp : ∀ p ∈ ps, paramHasFrom p = false) :
    ((((JSValue.vArr ps).optIdx 0).optProp ("from")).truthy) = false := by
  cases ps with
  | nil => rfl
  | cons p t =>
    have hf := hp p (List.mem_cons_self p t)
    simp only [JSValue.optIdx, List.getD, List.getD_cons_zero]
    cases p with
    | vObj fs =>
      simpa [paramHasFrom, JSValue.truthy, JSValue.isTypeofObject] using hf
    | vNull => rfl
    | vUndefined => rfl
    | vStr s => rfl
    | vNum n => rfl
    | vBool b => rfl
    | vArr xs => rfl

/-- C6: a record (an object, with arbitrary fields) whose method is none of
the five method strings of rules 1-4 and whose request parameters contain no
structured object with a truthy `from` field yields no findings and does not
raise, for every resolver. -/
theorem C6_no_rule_no_findings (r : Resolver) (fields : List (String × JSValue))
    (hm : isRule14Method ((JSValue.vObj fields).optProp ("method")) = false)
    (hp : noParamsFrom ((((JSValue.vObj fields).optProp ("request")).optProp
        ("body")).optProp ("params")) = true) :
    processDocument r (.vObj fields) = ⟨[], false⟩ := by
  simp only [isRule14Method, Bool.or_eq_false_iff] at hm
  obtain ⟨⟨⟨⟨h1, h2⟩, h3⟩, h4⟩, h5⟩ := hm
  have hcases12 : ∀ respResult params,
      cases12 r ((JSValue.vObj fields).optProp ("method")) respResult params
        = ⟨[], false⟩ := by
    intro respResult params
    simp [cases12, h1, h2, h3, h4, h5]
  have hfrom : (((((((JSValue.vObj fields).optProp ("request")).optProp
      ("body")).optProp ("params")).optIdx 0).optProp ("from")).truthy) = false := by
    generalize hps : (((JSValue.vObj fields).optProp ("request")).optProp
      ("body")).optProp ("params") = params at hp ⊢
    cases params with
    | vArr ps =>
      simp only [noParamsFrom, List.all_eq_true, Bool.not_eq_true'] at hp
      exact arr_no_from_head ps hp
    | vNull => rfl
    | vUndefined => rfl
    | vStr s => simpa [noParamsFrom] using hp
    | vNum n => rfl
    | vBool b => rfl
    | vObj fs => simpa [noParamsFrom] using hp
  have hcase3 : case3 ((((JSValue.vObj fields).optProp ("request")).optProp
      ("body")).optProp ("params")) = ⟨[], false⟩ := by
    generalize hps : (((JSValue.vObj fields).optProp ("request")).optProp
      ("body")).optProp ("params") = params at hp
    cases params with
    | vArr ps =>
      simp only [noParamsFrom, List.all_eq_true, Bool.not_eq_true'] at hp
      simp [case3, JSValue.truthy, JSValue.isArray, JSValue.arrElems,
        case3Loop_no_from ps hp]
    | vNull => rfl
    | vUndefined => rfl
    | vStr s => simp [case3, JSValue.isArray]
    | vNum n => simp [case3, JSValue.isArray]
    | vBool b => simp [case3, JSValue.isArray]
    | vObj fs => simp [case3, JSValue.isArray]
  have hcase4 : case4 ((JSValue.vObj fields).optProp ("method"))
      ((((JSValue.vObj fields).optProp ("request")).optProp
        ("body")).optProp ("params")) = ⟨[], false⟩ := by
    simp [case4, hfrom]
  simp only [processDocument, hcases12, hcase3, hcase4, ExecResult.seq]
  simp

/-- C6 witness: an `eth_blockNumber` record with params `["latest"]` matches
no rule, yields no findings, and does not raise. -/
theorem C6_no_rule_no_findings_witness :
    processDocument failResolver (.vObj [(("method"), .vStr ("eth_blockNumber")),
      (("request"), .vObj [(("body"), .vObj [(("params"),
        .vArr [.vStr ("latest")])])])]) = ⟨[], false⟩ :=
  C6_no_rule_no_findings failResolver
    [(("method"), .vStr ("eth_blockNumber")),
      (("request"), .vObj [(("body"), .vObj [(("params"),
        .vArr [.vStr ("latest")])])])]
    (by decide) (by decide)

/-! ### Claim C7 -/

/-- C7: `mergeAddresses` is an idempotent union of unique-address sets:
the spec's concrete example holds, re-merging the same address array twice
produces no change, membership in the merged output is exactly membership in
some input array, and every unique address appears exactly once (the output
has no duplicates). -/
theorem C7_merge_idempotent_union :
    mergeAddresses [[("0xa"), ("0xb")], [("0xb"), ("0xc")]]
        = [("0xa"), ("0xb"), ("0xc")]
    ∧ (∀ (arrays : List (List String)) (A : List String),
        mergeAddresses (arrays ++ [A, A]) = mergeAddresses (arrays ++ [A]))
    ∧ (∀ (arrays : List (List String)) (a : String),
        a ∈ mergeAddresses arrays ↔ ∃ l, l ∈ arrays ∧ a ∈ l)
    ∧ (∀ arrays : List (List String), (mergeAddresses arrays).Nodup) := by
  have hmem : ∀ (arrays : List (List String)) (s : List String) (a : String),
      a ∈ List.foldl (fun acc arr => List.foldl addUnique acc arr) s arrays
        ↔ a ∈ s ∨ ∃ l, l ∈ arrays ∧ a ∈ l := by
    intro arrays
    induction arrays with
    | nil => intro s a; simp
    | cons A t ih =>
      intro s a
      simp only [List.foldl_cons, ih, mem_foldl_addUnique, List.mem_cons]
      constructor
      · rintro ((h | h) | ⟨l, hl, hal⟩)
        · exact Or.inl h
        · exact Or.inr ⟨A, Or.inl rfl, h⟩
        · exact Or.inr ⟨l, Or.inr hl, hal⟩
      · rintro (h | ⟨l, (rfl | hl), hal⟩)
        · exact Or.inl (Or.inl h)
        · exact Or.inl (Or.inr hal)
        · exact Or.inr ⟨l, hl, hal⟩
  have hnodup : ∀ (arrays : List (List String)) (s : List String), s.Nodup →
      (List.foldl (fun acc arr => List.foldl addUnique acc arr) s arrays).Nodup := by
    intro arrays
    induction arrays with
    | nil => intro s h; exact h
    | cons A t ih => intro s h; exact ih _ (nodup_foldl_addUnique A h)
  refine ⟨by decide, ?_, ?_, ?_⟩
  · intro arrays A
    unfold mergeAddresses
    rw [List.foldl_append, List.foldl_append]
    simp only [List.foldl_cons, List.foldl_nil]
    apply foldl_addUnique_of_subset
    intro a ha
    exact (mem_foldl_addUnique A _ a).mpr (Or.inr ha)
  · intro arrays a
    unfold mergeAddresses
    rw [hmem]
    simp
  · intro arrays
    exact hnodup arrays [] List.nodup_nil

/-! ### Claim C8 -/

/-- Every address emitted by a successful `addAddress` normalization step is
a fixed point of case-folding. -/
theorem addrEmit_norm {v : JSValue} {s : String} (h : addrEmit v = .ok s) :
    jsToLower s = s := by
  cases v with
  | vStr t =>
    simp only [addrEmit, Except.ok.injEq] at h
    subst h
    exact jsToLower_idem t
  | vNull => simp [addrEmit] at h
  | vUndefined => simp [addrEmit] at h
  | vNum n => simp [addrEmit] at h
  | vBool b => simp [addrEmit] at h
  | vArr xs => simp [addrEmit] at h
  | vObj fs => simp [addrEmit] at h

/-- Findings produced by one resolver try/catch block are normalized. -/
theorem resolveOne_norm (r : Resolver) (h : JSValue) :
    ∀ a ∈ resolveOne r h, jsToLower a = a := by
  intro a ha
  unfold resolveOne at ha
  split at ha
  · dsimp only at ha
    split at ha
    · split at ha
      · rename_i he
        simp only [List.mem_singleton] at ha
        subst ha
        exact addrEmit_norm he
      · simp at ha
    · simp at ha
  · simp at ha

/-- Findings of the structured-object loop are normalized. -/
theorem case1objLoop_norm (txs : List JSValue) :
    ∀ a ∈ (case1objLoop txs).out, jsToLower a = a := by
  induction txs with
  | nil => intro a ha; simp [case1objLoop] at ha
  | cons tx rest ih =>
    intro a ha
    cases tx with
    | vNull => simp [case1objLoop] at ha
    | vUndefined => simp [case1objLoop] at ha
    | vStr s =>
      simp only [case1objLoop] at ha
      split at ha
      · split at ha
        · rename_i he
          simp only [List.mem_cons] at ha
          rcases ha with rfl | ha
          · exact addrEmit_norm he
          · exact ih a ha
        · simp at ha
      · exact ih a ha
    | vNum n =>
      simp only [case1objLoop] at ha
      split at ha
      · split at ha
        · rename_i he
          simp only [List.mem_cons] at ha
          rcases ha with rfl | ha
          · exact addrEmit_norm he
          · exact ih a ha
        · simp at ha
      · exact ih a ha
    | vBool b =>
      simp only [case1objLoop] at ha
      split at ha
      · split at ha
        · rename_i he
          simp only [List.mem_cons] at ha
          rcases ha with rfl | ha
          · exact addrEmit_norm he
          · exact ih a ha
        · simp at ha
      · exact ih a ha
    | vArr xs =>
      simp only [case1objLoop] at ha
      split at ha
      · split at ha
        · rename_i he
          simp only [List.mem_cons] at ha
          rcases ha with rfl | ha
          · exact addrEmit_norm he
          · exact ih a ha
        · simp at ha
      · exact ih a ha
    | vObj fs =>
      simp only [case1objLoop] at ha
      split at ha
      · split at ha
        · rename_i he
          simp only [List.mem_cons] at ha
          rcases ha with rfl | ha
          · exact addrEmit_norm he
          · exact ih a ha
        · simp at ha
      · exact ih a ha

/-- Findings of the hash-resolution loop are normalized. -/
theorem case1hashLoop_norm (r : Resolver) (txs : List JSValue) :
    ∀ a ∈ case1hashLoop r txs, jsToLower a = a := by
  induction txs with
  | nil => intro a ha; simp [case1hashLoop] at ha
  | cons h rest ih =>
    intro a ha
    simp only [case1hashLoop, List.mem_append] at ha
    rcases ha with ha | ha
    · exact resolveOne_norm r h a ha
    · exact ih a ha

/-- Findings of CASES 1 and 2 are normalized. -/
theorem cases12_norm (r : Resolver) (method respResult params : JSValue) :
    ∀ a ∈ (cases12 r method respResult params).out, jsToLower a = a := by
  intro a ha
  unfold cases12 at ha
  split at ha
  · unfold case1core at ha
    split at ha
    · exact case1objLoop_norm _ a ha
    · exact case1hashLoop_norm r _ a (by simpa using ha)
  · split at ha
    · exact resolveOne_norm r _ a (by simpa using ha)
    · split at ha
      · split at ha
        · rename_i he
          simp only [List.mem_singleton] at ha
          subst ha
          exact addrEmit_norm he
        · simp at ha
      · split at ha
        · dsimp only at ha
          split at ha
          · exact resolveOne_norm r _ a (by simpa using ha)
          · simp at ha
        · simp at ha

/-- Findings of the CASE 3 loop are normalized. -/
theorem case3Loop_norm (ps : List JSValue) :
    ∀ a ∈ (case3Loop ps).out, jsToLower a = a := by
  induction ps with
  | nil => intro a ha; simp [case3Loop] at ha
  | cons p rest ih =>
    intro a ha
    simp only [case3Loop] at ha
    split at ha
    · split at ha
      · rename_i he
        simp only [List.mem_cons] at ha
        rcases ha with rfl | ha
        · exact addrEmit_norm he
        · exact ih a ha
      · simp at ha
    · exact ih a ha

/-- Findings of CASE 3 are normalized. -/
theorem case3_norm (params : JSValue) :
    ∀ a ∈ (case3 params).out, jsToLower a = a := by
  intro a ha
  unfold case3 at ha
  split at ha
  · split at ha
    · exact case3Loop_norm _ a ha
    · simp at ha
  · simp at ha

/-- Findings of CASE 4 are normalized. -/
theorem case4_norm (method params : JSValue) :
    ∀ a ∈ (case4 method params).out, jsToLower a = a := by
  intro a ha
  unfold case4 at ha
  split at ha
  · split at ha
    · rename_i he
      simp only [List.mem_singleton] at ha
      subst ha
      exact addrEmit_norm he
    · simp at ha
  · simp at ha

/-- Membership in the output of a sequenced block comes from one of the two
blocks. -/
theorem mem_seq_out {x y : ExecResult} {a : String} (h : a ∈ (x.seq y).out) :
    a ∈ x.out ∨ a ∈ y.out := by
  unfold ExecResult.seq at h
  split at h
  · exact Or.inl h
  · simpa using h

/-- Every finding reported by `processDocument` is normalized. -/
theorem processDocument_norm (r : Resolver) (doc : JSValue) :
    ∀ a ∈ (processDocument r doc).out, jsToLower a = a := by
  intro a ha
  cases doc with
  | vNull => simp [processDocument] at ha
  | vUndefined => simp [processDocument] at ha
  | vStr s =>
    simp only [processDocument] at ha
    rcases mem_seq_out ha with h | h
    · rcases mem_seq_out h with h | h
      · exact cases12_norm r _ _ _ a h
      · exact case3_norm _ a h
    · exact case4_norm _ _ a h
  | vNum n =>
    simp only [processDocument] at ha
    rcases mem_seq_out ha with h | h
    · rcases mem_seq_out h with h | h
      · exact cases12_norm r _ _ _ a h
      · exact case3_norm _ a h
    · exact case4_norm _ _ a h
  | vBool b =>
    simp only [processDocument] at ha
    rcases mem_seq_out ha with h | h
    · rcases mem_seq_out h with h | h
      · exact cases12_norm r _ _ _ a h
      · exact case3_norm _ a h
    · exact case4_norm _ _ a h
  | vArr xs =>
    simp only [processDocument] at ha
    rcases mem_seq_out ha with h | h
    · rcases mem_seq_out h with h | h
      · exact cases12_norm r _ _ _ a h
      · exact case3_norm _ a h
    · exact case4_norm _ _ a h
  | vObj fs =>
    simp only [processDocument] at ha
    rcases mem_seq_out ha with h | h
    · rcases mem_seq_out h with h | h
      · exact cases12_norm r _ _ _ a h
      · exact case3_norm _ a h
    · exact case4_norm _ _ a h

/-- Every entry of an association list after an own-property assignment has
either the assigned key or a key already present. -/
theorem assocSet_key_mem {c : List (String × CountVal)} {k : String}
    {v : CountVal} {p : String × CountVal} (h : p ∈ assocSet c k v) :
    p.1 = k ∨ p ∈ c := by
  induction c with
  | nil =>
    simp only [assocSet, List.mem_singleton] at h
    subst h
    exact Or.inl rfl
  | cons q rest ih =>
    obtain ⟨k0, v0⟩ := q
    simp only [assocSet] at h
    split at h
    · rename_i hk
      simp only [List.mem_cons] at h
      rcases h with rfl | h
      · exact Or.inl hk
      · exact Or.inr (List.mem_cons_of_mem _ h)
    · simp only [List.mem_cons] at h
      rcases h with rfl | h
      · exact Or.inr (List.mem_cons_self _ _)
      · rcases ih h with hk | hmem
        · exact Or.inl hk
        · exact Or.inr (List.mem_cons_of_mem _ hmem)

/-- Same key-origin fact for the `Map`-backed association list. -/
theorem assocSetNat_key_mem {c : List (String × Nat)} {k : String}
    {v : Nat} {p : String × Nat} (h : p ∈ assocSetNat c k v) :
    p.1 = k ∨ p ∈ c := by
  induction c with
  | nil =>
    simp only [assocSetNat, List.mem_singleton] at h
    subst h
    exact Or.inl rfl
  | cons q rest ih =>
    obtain ⟨k0, v0⟩ := q
    simp only [assocSetNat] at h
    split at h
    · rename_i hk
      simp only [List.mem_cons] at h
      rcases h with rfl | h
      · exact Or.inl hk
      · exact Or.inr (List.mem_cons_of_mem _ h)
    · simp only [List.mem_cons] at h
      rcases h with rfl | h
      · exact Or.inr (List.mem_cons_self _ _)
      · rcases ih h with hk | hmem
        · exact Or.inl hk
        · exact Or.inr (List.mem_cons_of_mem _ hmem)

/-- One plain-object counting step only introduces the normalized key. -/
theorem addAddressCounts_key {c : List (String × CountVal)} {raw : String}
    {p : String × CountVal} (h : p ∈ addAddressCounts c raw) :
    p.1 = jsToLower raw ∨ p ∈ c := by
  unfold addAddressCounts at h
  dsimp only at h
  split at h
  · unfold countsIncr at h
    split at h
    · exact assocSet_key_mem h
    · exact assocSet_key_mem h
    · exact assocSet_key_mem h
  · exact assocSet_key_mem h

/-- One `Map` counting step only introduces the normalized key. -/
theorem addAddressMap_key {c : List (String × Nat)} {raw : String}
    {p : String × Nat} (h : p ∈ addAddressMap c raw) :
    p.1 = jsToLower raw ∨ p ∈ c :=
  assocSetNat_key_mem h

/-- C8: normalization invariant of the aggregation state. Every address in
the unique-address set built by `extractFromAddresses` (for any resolver and
any record sequence) is a fixed point of case-folding, and so is every key of
the plain-object counts map and of the `Map`-based counts map after any
finite sequence of `addAddress` calls: the raw casing found in the record is
discarded before any insertion or increment. -/
theorem C8_normalization_invariant :
    (∀ (r : Resolver) (docs : List JSValue) (a : String),
        a ∈ extractFromAddresses r docs → jsToLower a = a)
    ∧ (∀ (raws : List String) (p : String × CountVal),
        p ∈ List.foldl addAddressCounts [] raws → jsToLower p.1 = p.1)
    ∧ (∀ (raws : List String) (p : String × Nat),
        p ∈ List.foldl addAddressMap [] raws → jsToLower p.1 = p.1) := by
  refine ⟨?_, ?_, ?_⟩
  · intro r docs
    have aux : ∀ (ds : List JSValue) (s : List String),
        (∀ a ∈ s, jsToLower a = a) →
        ∀ a ∈ List.foldl (fun acc doc => addFindings acc (processDocument r doc).out) s ds,
          jsToLower a = a := by
      intro ds
      induction ds with
      | nil => intro s hs a ha; exact hs a ha
      | cons d t ih =>
        intro s hs a ha
        refine ih _ ?_ a ha
        intro b hb
        unfold addFindings at hb
        rcases (mem_foldl_addUnique _ s b).mp hb with hb | hb
        · exact hs b hb
        · exact processDocument_norm r d b hb
    exact aux docs [] (by simp)
  · intro raws
    have aux : ∀ (rs : List String) (c : List (String × CountVal)),
        (∀ p ∈ c, jsToLower p.1 = p.1) →
        ∀ p ∈ List.foldl addAddressCounts c rs, jsToLower p.1 = p.1 := by
      intro rs
      induction rs with
      | nil => intro c hc p hp; exact hc p hp
      | cons raw t ih =>
        intro c hc p hp
        refine ih _ ?_ p hp
        intro q hq
        rcases addAddressCounts_key hq with hk | hq2
        · rw [hk]; exact jsToLower_idem raw
        · exact hc q hq2
    exact aux raws [] (by simp)
  · intro raws
    have aux : ∀ (rs : List String) (c : List (String × Nat)),
        (∀ p ∈ c, jsToLower p.1 = p.1) →
        ∀ p ∈ List.foldl addAddressMap c rs, jsToLower p.1 = p.1 := by
      intro rs
      induction rs with
      | nil => intro c hc p hp; exact hc p hp
      | cons raw t ih =>
        intro c hc p hp
        refine ih _ ?_ p hp
        intro q hq
        rcases addAddressMap_key hq with hk | hq2
        · rw [hk]; exact jsToLower_idem raw
        · exact hc q hq2
    exact aux raws [] (by simp)

/-! ### Claim C9 -/

/-- A hash-string element inside the structured-object loop contributes
nothing: a string has no `from` property, so the guard `if (tx.from)` is
falsy and the element is skipped (it is never resolved). -/
theorem case1objLoop_skip_str (pre post : List JSValue) (h : String) :
    case1objLoop (pre ++ .vStr h :: post) = case1objLoop (pre ++ post) := by
  induction pre with
  | nil =>
    simp only [List.nil_append]
    simp [case1objLoop, JSValue.optProp, JSValue.truthy]
  | cons tx pre ih =>
    simp only [List.cons_append]
    cases tx with
    | vNull => rfl
    | vUndefined => rfl
    | vStr s => simp only [case1objLoop, ih]
    | vNum n => simp only [case1objLoop, ih]
    | vBool b => simp only [case1objLoop, ih]
    | vArr xs => simp only [case1objLoop, ih]
    | vObj fs => simp only [case1objLoop, ih]

/-- C9: for a block record matching rule 1, the branch between
structured-object handling and hash resolution is decided solely by the type
of the first element of the transactions array. If the first element is of
object type, the whole record's extraction is independent of the resolver (no
element is resolved) and hash-string elements anywhere in the array
contribute no findings; if the array is empty, the record yields no findings,
throws nothing, and performs no resolver call (the result is the same for
every resolver). -/
theorem C9_first_element_decides_branch (r r2 : Resolver) (m : String)
    (t0 : JSValue) (rest : List JSValue)
    (hm : m = ("eth_getBlockByNumber") ∨ m = ("eth_getBlockByHash"))
    (h0 : t0.isTypeofObject = true) :
    processDocument r (blockDoc m (t0 :: rest))
        = processDocument r2 (blockDoc m (t0 :: rest))
    ∧ (∀ (pre post : List JSValue) (h : String),
        case1objLoop (pre ++ .vStr h :: post) = case1objLoop (pre ++ post))
    ∧ (∀ r3 : Resolver, processDocument r3 (blockDoc m []) = ⟨[], false⟩) := by
  refine ⟨?_, case1objLoop_skip_str, ?_⟩
  · rcases hm with hm | hm <;> subst hm <;>
      simp [processDocument, blockDoc, cases12, case1core, case3, case4,
        JSValue.optProp, JSValue.optIdx, JSValue.isStr, JSValue.truthy,
        JSValue.isArray, JSValue.arrElems, List.getD, h0,
        ExecResult.seq, List.lookup]
  · intro r3
    rcases hm with hm | hm <;> subst hm <;> rfl

/-- C9 witness: with a transactions array whose first element is a
transaction object (`from = "0xA"`) followed by a hash string `"H2"`, a
resolver that always fails and one that resolves `"H2"` give the same result;
the hash element contributes nothing to the object loop; and the empty
transactions array yields no findings. -/
theorem C9_first_element_decides_branch_witness :
    processDocument failResolver (blockDoc ("eth_getBlockByNumber")
        (JSValue.vObj [(("from"), .vStr ("0xA"))] :: [.vStr ("H2")]))
      = processDocument (mkResolver (fun _ => some ("0xC")))
          (blockDoc ("eth_getBlockByNumber")
            (JSValue.vObj [(("from"), .vStr ("0xA"))] :: [.vStr ("H2")]))
    ∧ case1objLoop ([JSValue.vObj [(("from"), .vStr ("0xA"))]] ++ .vStr ("H2") :: [])
        = case1objLoop ([JSValue.vObj [(("from"), .vStr ("0xA"))]] ++ [])
    ∧ processDocument failResolver (blockDoc ("eth_getBlockByNumber") [])
        = ⟨[], false⟩ := by
  have main := C9_first_element_decides_branch failResolver
    (mkResolver (fun _ => some ("0xC"))) ("eth_getBlockByNumber")
    (JSValue.vObj [(("from"), .vStr ("0xA"))]) [.vStr ("H2")]
    (Or.inl rfl) (by decide)
  exact ⟨main.1, main.2.1 [JSValue.vObj [(("from"), .vStr ("0xA"))]] [] ("H2"),
    main.2.2 failResolver⟩
